import Mathlib

/-!
Verification of the package acquisition and installation pipeline of the
`heroku/buildpacks-deb-packages` buildpack, against its natural-language
specification.

The development shallowly embeds the Rust sources:

* `src/debian/package_index.rs` — the package index and its queries,
* `src/determine_packages_to_install.rs` — the dependency resolver,
* `src/install_packages.rs` — download/checksum/extract, layer environment
  construction, pkg-config rewriting, and the install-layer cache decision,
* `src/debian/distro.rs`, `src/debian/architecture_name.rs` — distro profiles.

Strings are modelled as `List Char` internally (converted at the boundary via
`String.data`) so that every definition is executable by the kernel.  Machine
maps (`HashMap`, `IndexMap`, `IndexSet`) are modelled as association lists with
the operations the source uses.  Debian version comparison (the external
`debversion` crate, whose behaviour the spec pins down as "the full Debian
algorithm: epoch, segment alternation between non-numeric and numeric runs,
`~` sorts before everything including empty") is implemented in full below.
-/

namespace DebPkgs

/-! ## Ordering infrastructure

`icmp`/`ncmp` embed `Ord::cmp` on integers; `CmpLaws` packages the properties
of a lawful comparator (antisymmetric swap and transitivity of "not greater"),
from which the lexicographic lemmas needed for sorting are derived. -/

def icmp (a b : Int) : Ordering :=
  if a < b then .lt else if a = b then .eq else .gt

def ncmp (a b : Nat) : Ordering :=
  if a < b then .lt else if a = b then .eq else .gt

theorem ordering_then_ne_gt {o1 o2 : Ordering} :
    o1.then o2 ≠ .gt ↔ (o1 = .lt ∨ (o1 = .eq ∧ o2 ≠ .gt)) := by
  cases o1 <;> cases o2 <;> simp [Ordering.then]

theorem ordering_then_swap (o1 o2 : Ordering) :
    (o1.then o2).swap = o1.swap.then o2.swap := by
  cases o1 <;> cases o2 <;> rfl

/-- Laws of a comparator: `symm` says swapping the arguments swaps the result,
`le_trans` is transitivity of the reflexive order `cmp a b ≠ .gt`. -/
structure CmpLaws {α : Type u} (c : α → α → Ordering) : Prop where
  symm : ∀ a b, c a b = (c b a).swap
  le_trans : ∀ a b e, c a b ≠ .gt → c b e ≠ .gt → c a e ≠ .gt

theorem CmpLaws.refl_eq {c : α → α → Ordering} (h : CmpLaws c) (a : α) :
    c a a = .eq := by
  have hs := h.symm a a
  cases hx : c a a
  · rw [hx] at hs; exact absurd hs (by decide)
  · rfl
  · rw [hx] at hs; exact absurd hs (by decide)

theorem CmpLaws.eq_symm {c : α → α → Ordering} (h : CmpLaws c) {a b : α}
    (hab : c a b = .eq) : c b a = .eq := by
  have hs := h.symm b a
  rw [hs, hab]; rfl

theorem CmpLaws.lt_iff_gt {c : α → α → Ordering} (h : CmpLaws c) {a b : α} :
    c a b = .lt ↔ c b a = .gt := by
  have hs := h.symm a b
  constructor
  · intro hab; rw [h.symm b a, hab]; rfl
  · intro hba; rw [hs, hba]; rfl

theorem CmpLaws.eq_trans {c : α → α → Ordering} (h : CmpLaws c) {a b e : α}
    (hab : c a b = .eq) (hbe : c b e = .eq) : c a e = .eq := by
  have h1 : c a e ≠ .gt := h.le_trans a b e (by simp [hab]) (by simp [hbe])
  have h2 : c e a ≠ .gt :=
    h.le_trans e b a (by simp [h.eq_symm hbe]) (by simp [h.eq_symm hab])
  cases hx : c a e
  · exact absurd (h.lt_iff_gt.mp hx) h2
  · rfl
  · exact absurd hx h1

theorem CmpLaws.lt_of_lt_of_eq {c : α → α → Ordering} (h : CmpLaws c) {a b e : α}
    (hab : c a b = .lt) (hbe : c b e = .eq) : c a e = .lt := by
  have h1 : c a e ≠ .gt := h.le_trans a b e (by simp [hab]) (by simp [hbe])
  cases hx : c a e
  · rfl
  · exfalso
    have : c a b = .eq := h.eq_trans hx (h.eq_symm hbe)
    simp [hab] at this
  · exact absurd hx h1

theorem CmpLaws.lt_of_eq_of_lt {c : α → α → Ordering} (h : CmpLaws c) {a b e : α}
    (hab : c a b = .eq) (hbe : c b e = .lt) : c a e = .lt := by
  have h1 : c a e ≠ .gt := h.le_trans a b e (by simp [hab]) (by simp [hbe])
  cases hx : c a e
  · rfl
  · exfalso
    have : c b e = .eq := h.eq_trans (h.eq_symm hab) hx
    simp [hbe] at this
  · exact absurd hx h1

theorem CmpLaws.lt_trans {c : α → α → Ordering} (h : CmpLaws c) {a b e : α}
    (hab : c a b = .lt) (hbe : c b e = .lt) : c a e = .lt := by
  have h1 : c a e ≠ .gt := h.le_trans a b e (by simp [hab]) (by simp [hbe])
  cases hx : c a e
  · rfl
  · exfalso
    have h2 : c e a = .eq := h.eq_symm hx
    have h3 : c b a ≠ .gt := h.le_trans b e a (by simp [hbe]) (by simp [h2])
    exact h3 (h.lt_iff_gt.mp hab)
  · exact absurd hx h1

/-- Comparator laws are preserved by pulling back along a function. -/
theorem CmpLaws.comap {c : β → β → Ordering} (h : CmpLaws c) (f : α → β) :
    CmpLaws (fun a b => c (f a) (f b)) where
  symm := fun a b => h.symm (f a) (f b)
  le_trans := fun a b e hab hbe => h.le_trans (f a) (f b) (f e) hab hbe

/-- Comparator laws are preserved by lexicographic composition with
`Ordering.then`. -/
theorem CmpLaws.thenCmp {c1 c2 : α → α → Ordering} (h1 : CmpLaws c1)
    (h2 : CmpLaws c2) : CmpLaws (fun a b => (c1 a b).then (c2 a b)) where
  symm := fun a b => by rw [h1.symm a b, h2.symm a b, ordering_then_swap]
  le_trans := by
    intro a b e hab hbe
    rw [ordering_then_ne_gt] at hab hbe ⊢
    rcases hab with hab | ⟨hab, hab2⟩
    · rcases hbe with hbe | ⟨hbe, _⟩
      · exact .inl (h1.lt_trans hab hbe)
      · exact .inl (h1.lt_of_lt_of_eq hab hbe)
    · rcases hbe with hbe | ⟨hbe, hbe2⟩
      · exact .inl (h1.lt_of_eq_of_lt hab hbe)
      · exact .inr ⟨h1.eq_trans hab hbe, h2.le_trans a b e hab2 hbe2⟩

theorem icmp_laws : CmpLaws icmp where
  symm := by
    intro a b
    unfold icmp
    rcases lt_trichotomy a b with h | h | h
    · rw [if_pos h, if_neg (by omega), if_neg (by omega)]; rfl
    · subst h; simp only [if_neg (lt_irrefl a), if_pos rfl]; rfl
    · rw [if_neg (by omega), if_neg (by omega), if_pos h]; rfl
  le_trans := by
    intro a b e hab hbe
    unfold icmp at hab hbe ⊢
    split at hab <;> split at hbe <;> split <;> simp_all <;> omega

theorem ncmp_laws : CmpLaws ncmp where
  symm := by
    intro a b
    unfold ncmp
    rcases lt_trichotomy a b with h | h | h
    · rw [if_pos h, if_neg (by omega), if_neg (by omega)]; rfl
    · subst h; simp only [if_neg (lt_irrefl a), if_pos rfl]; rfl
    · rw [if_neg (by omega), if_neg (by omega), if_pos h]; rfl
  le_trans := by
    intro a b e hab hbe
    unfold ncmp at hab hbe ⊢
    split at hab <;> split at hbe <;> split <;> simp_all <;> omega

/-! ### Padded comparison

`padCmpN c d n` compares two lists position by position for `n` steps, padding
the shorter list with the default `d`.  `padCmp` runs it for the length of the
longer list.  This is the comparison shape of dpkg's `verrevcmp`: a missing
character behaves like the order value `0`. -/

def padCmpN (c : α → α → Ordering) (d : α) : Nat → List α → List α → Ordering
  | 0, _, _ => .eq
  | n + 1, xs, ys => (c (xs.headD d) (ys.headD d)).then (padCmpN c d n xs.tail ys.tail)

def padCmp (c : α → α → Ordering) (d : α) (xs ys : List α) : Ordering :=
  padCmpN c d (max xs.length ys.length) xs ys

theorem padCmpN_nil_nil {c : α → α → Ordering} {d : α} (hd : c d d = .eq) :
    ∀ n, padCmpN c d n ([] : List α) [] = .eq := by
  intro n
  induction n with
  | zero => rfl
  | succ n ih => simp [padCmpN, hd, ih, Ordering.then]

theorem padCmpN_succ_of_le {c : α → α → Ordering} {d : α} (hd : c d d = .eq) :
    ∀ (n : Nat) (xs ys : List α), xs.length ≤ n → ys.length ≤ n →
      padCmpN c d (n + 1) xs ys = padCmpN c d n xs ys := by
  intro n
  induction n with
  | zero =>
    intro xs ys hx hy
    rw [List.length_eq_zero.mp (Nat.le_zero.mp hx), List.length_eq_zero.mp (Nat.le_zero.mp hy)]
    simp [padCmpN, hd, Ordering.then]
  | succ n ih =>
    intro xs ys hx hy
    match xs, ys with
    | [], [] => rw [padCmpN_nil_nil hd, padCmpN_nil_nil hd]
    | [], y :: ys =>
      show (c d y).then _ = (c d y).then _
      rw [show ([] : List α).tail = [] from rfl, List.tail_cons,
        ih [] ys (by simp) (by simpa using hy)]
    | x :: xs, [] =>
      show (c x d).then _ = (c x d).then _
      rw [show ([] : List α).tail = [] from rfl, List.tail_cons,
        ih xs [] (by simpa using hx) (by simp)]
    | x :: xs, y :: ys =>
      show (c x y).then _ = (c x y).then _
      rw [List.tail_cons, List.tail_cons,
        ih xs ys (by simpa using hx) (by simpa using hy)]

theorem padCmpN_stable {c : α → α → Ordering} {d : α} (hd : c d d = .eq)
    (xs ys : List α) :
    ∀ n, max xs.length ys.length ≤ n → padCmpN c d n xs ys = padCmp c d xs ys := by
  intro n
  induction n with
  | zero => intro h; rw [padCmp, Nat.le_zero.mp h]
  | succ n ih =>
    intro h
    rcases Nat.lt_or_ge (max xs.length ys.length) (n + 1) with hlt | hge
    · have hn : max xs.length ys.length ≤ n := Nat.lt_succ_iff.mp hlt
      rw [padCmpN_succ_of_le hd n xs ys (le_trans (Nat.le_max_left _ _) hn)
        (le_trans (Nat.le_max_right _ _) hn), ih hn]
    · have : max xs.length ys.length = n + 1 := Nat.le_antisymm h hge
      rw [padCmp, this]

theorem padCmpN_laws {c : α → α → Ordering} {d : α} (h : CmpLaws c) :
    ∀ n, CmpLaws (fun xs ys : List α => padCmpN c d n xs ys) := by
  intro n
  induction n with
  | zero => exact ⟨fun _ _ => rfl, fun _ _ _ h1 _ => h1⟩
  | succ n ih =>
    have hhead : CmpLaws (fun xs ys : List α => c (xs.headD d) (ys.headD d)) :=
      h.comap (List.headD · d)
    have htail : CmpLaws (fun xs ys : List α => padCmpN c d n xs.tail ys.tail) :=
      ih.comap List.tail
    exact hhead.thenCmp htail

theorem padCmp_laws {c : α → α → Ordering} {d : α} (h : CmpLaws c) :
    CmpLaws (fun xs ys : List α => padCmp c d xs ys) where
  symm := by
    intro xs ys
    have hd : c d d = .eq := h.refl_eq d
    rw [padCmp, padCmp, Nat.max_comm ys.length xs.length]
    exact (padCmpN_laws h (max xs.length ys.length)).symm xs ys
  le_trans := by
    intro xs ys zs hab hbe
    have hd : c d d = .eq := h.refl_eq d
    set N := max (max xs.length ys.length) (max ys.length zs.length) with hN
    have h1 : padCmpN c d N xs ys = padCmp c d xs ys :=
      padCmpN_stable hd xs ys N (Nat.le_max_left _ _)
    have h2 : padCmpN c d N ys zs = padCmp c d ys zs :=
      padCmpN_stable hd ys zs N (Nat.le_max_right _ _)
    have h3 : padCmpN c d N xs zs = padCmp c d xs zs :=
      padCmpN_stable hd xs zs N (by
        rw [hN]
        exact max_le_max (Nat.le_max_left _ _) (Nat.le_max_right _ _))
    rw [← h3]
    exact (padCmpN_laws h N).le_trans xs ys zs (h1 ▸ hab) (h2 ▸ hbe)

/-! ## Debian version ordering

Embedding of the external `debversion` crate used by
`src/debian/package_index.rs`.  The spec (§9, Glossary) pins its behaviour
down as the full Debian algorithm of dpkg's `verrevcmp`: a version part is
compared by alternating runs of non-digit and digit characters; a non-digit
character is ranked by `charOrder` (`~` below everything, letters below all
other non-digits, a missing character or a digit ranks `0`); digit runs are
compared numerically. -/

def charOrder (ch : Char) : Int :=
  if ch.isDigit then 0
  else if ch.isAlpha then (ch.toNat : Int)
  else if ch = '~' then -1
  else (ch.toNat : Int) + 256

def natOfDigits (ds : List Char) : Nat :=
  ds.foldl (fun acc ch => acc * 10 + (ch.toNat - 48)) 0

/-- Decompose a version part into its alternating runs: each element pairs the
`charOrder` values of a non-digit run with the numeric value of the digit run
that follows it.  `nd` and `ds` accumulate the current runs in reverse;
`inD` records whether a digit run is open. -/
def verKeyAux : List Char → List Int → List Char → Bool → List (List Int × Nat)
  | [], nd, ds, _ => [(nd.reverse, natOfDigits ds.reverse)]
  | ch :: cs, nd, ds, inD =>
    if inD then
      if ch.isDigit then verKeyAux cs nd (ch :: ds) true
      else (nd.reverse, natOfDigits ds.reverse) :: verKeyAux cs [charOrder ch] [] false
    else
      if ch.isDigit then verKeyAux cs nd [ch] true
      else verKeyAux cs (charOrder ch :: nd) [] false

def verKey (cs : List Char) : List (List Int × Nat) :=
  verKeyAux cs [] [] false

def cmpRun (r1 r2 : List Int) : Ordering :=
  padCmp icmp 0 r1 r2

def cmpItem (x y : List Int × Nat) : Ordering :=
  (cmpRun x.1 y.1).then (ncmp x.2 y.2)

/-- Comparison of one version part (upstream version or Debian revision),
dpkg's `verrevcmp`. -/
def verrevcmp (a b : List Char) : Ordering :=
  padCmp cmpItem ([], 0) (verKey a) (verKey b)

theorem cmpRun_laws : CmpLaws cmpRun :=
  padCmp_laws icmp_laws

theorem cmpItem_laws : CmpLaws cmpItem :=
  (cmpRun_laws.comap (Prod.fst : List Int × Nat → List Int)).thenCmp
    (ncmp_laws.comap (Prod.snd : List Int × Nat → Nat))

theorem verrevcmp_laws : CmpLaws verrevcmp :=
  (padCmp_laws cmpItem_laws).comap verKey

/-- Parsed `[epoch:]upstream[-revision]` Debian version. -/
structure DebVersion where
  epoch : Nat
  upstream : List Char
  revision : List Char
deriving DecidableEq, Repr

/-- Full Debian version comparison: epoch numerically, then upstream and
revision by `verrevcmp`. -/
def cmpDebVersion (a b : DebVersion) : Ordering :=
  (ncmp a.epoch b.epoch).then
    ((verrevcmp a.upstream b.upstream).then (verrevcmp a.revision b.revision))

theorem cmpDebVersion_laws : CmpLaws cmpDebVersion :=
  (ncmp_laws.comap DebVersion.epoch).thenCmp
    (((verrevcmp_laws.comap DebVersion.upstream)).thenCmp
      (verrevcmp_laws.comap DebVersion.revision))

def splitOnChar (sep : Char) : List Char → List (List Char)
  | [] => [[]]
  | ch :: cs =>
    let rest := splitOnChar sep cs
    if ch = sep then [] :: rest
    else
      match rest with
      | [] => [[ch]]
      | r :: rs => (ch :: r) :: rs

def joinWithChar (sep : Char) : List (List Char) → List Char
  | [] => []
  | [x] => x
  | x :: xs => x ++ sep :: joinWithChar sep xs

/-- Modelled from the spec: `debversion::Version::from_str` (the crate behind
the `expect` in `get_highest_available_version`; the crate itself is an
external dependency).  Per the spec a version is `[epoch:]upstream[-revision]`;
parsing fails on an empty string, embedded spaces, a non-numeric or empty
epoch before a `:`, or nothing after the `:`.  The revision is everything
after the last `-`. -/
def parseDebVersion (s : String) : Option DebVersion :=
  let cs := s.data
  if cs = [] then none
  else if cs.contains ' ' then none
  else if cs.contains ':' then
    let e := cs.takeWhile (fun ch => ch ≠ ':')
    let rest := (cs.dropWhile (fun ch => ch ≠ ':')).tail
    if e ≠ [] ∧ e.all Char.isDigit ∧ rest ≠ [] then
      some (mkDebVersion (natOfDigits e) rest)
    else none
  else some (mkDebVersion 0 cs)
where
  mkDebVersion (e : Nat) (rest : List Char) : DebVersion :=
    let parts := splitOnChar '-' rest
    match parts with
    | [] => ⟨e, rest, []⟩
    | [up] => ⟨e, up, []⟩
    | _ => ⟨e, joinWithChar '-' parts.dropLast, parts.getLast?.getD []⟩

example : verrevcmp "1.2".data "1.10".data = .lt := by decide
example : verrevcmp "1.0~beta1".data "1.0".data = .lt := by decide
example : verrevcmp "1.0".data "1.0a".data = .lt := by decide
example : verrevcmp "7.81.0".data "7.81.0".data = .eq := by decide
example : parseDebVersion "1:2.3-4ubuntu5" = some ⟨1, "2.3".data, "4ubuntu5".data⟩ := by decide
example : parseDebVersion "1.2.3-2ubuntu0.22.04.2" = some ⟨0, "1.2.3".data, "2ubuntu0.22.04.2".data⟩ := by decide
example : parseDebVersion "test-version" = some ⟨0, "test".data, "version".data⟩ := by decide
example : parseDebVersion "abc:1" = none := by decide
example : parseDebVersion "not a version" = none := by decide
example :
    cmpDebVersion ⟨0, "1.2.2".data, []⟩ ⟨0, "1.2.3".data, []⟩ = .lt := by decide

/-! ## Stable sorting

`sortBy` models Rust's stable `slice::sort_by` (insertion from the left, an
element is placed after every earlier element that is `le` it).  The spec
only relies on sortedness and permutation ("ties broken arbitrarily"). -/

def insertBy (le : α → α → Bool) (x : α) : List α → List α
  | [] => [x]
  | y :: ys => if le y x then y :: insertBy le x ys else x :: y :: ys

def sortBy (le : α → α → Bool) (l : List α) : List α :=
  l.foldl (fun acc x => insertBy le x acc) []

theorem insertBy_perm (le : α → α → Bool) (x : α) :
    ∀ l : List α, List.Perm (insertBy le x l) (x :: l) := by
  intro l
  induction l with
  | nil => simp [insertBy]
  | cons y ys ih =>
    by_cases h : le y x = true
    · rw [show insertBy le x (y :: ys) = y :: insertBy le x ys from by simp [insertBy, h]]
      exact (ih.cons y).trans (List.Perm.swap x y ys)
    · simp [insertBy, h]

theorem sortBy_foldl_perm (le : α → α → Bool) :
    ∀ l acc : List α,
      List.Perm (l.foldl (fun a x => insertBy le x a) acc) (acc ++ l) := by
  intro l
  induction l with
  | nil => intro acc; simp
  | cons x xs ih =>
    intro acc
    have e1 : (x :: xs).foldl (fun a x => insertBy le x a) acc
        = xs.foldl (fun a x => insertBy le x a) (insertBy le x acc) := rfl
    rw [e1]
    exact (ih (insertBy le x acc)).trans
      (((insertBy_perm le x acc).append_right xs).trans List.perm_middle.symm)

theorem sortBy_perm (le : α → α → Bool) (l : List α) :
    List.Perm (sortBy le l) l := by
  simpa using sortBy_foldl_perm le l []

theorem insertBy_pairwise {le : α → α → Bool}
    (htotal : ∀ a b, le a b = true ∨ le b a = true)
    (htrans : ∀ a b e, le a b = true → le b e = true → le a e = true)
    (x : α) :
    ∀ l : List α, l.Pairwise (fun a b => le a b = true) →
      (insertBy le x l).Pairwise (fun a b => le a b = true) := by
  intro l
  induction l with
  | nil => intro _; simp [insertBy]
  | cons y ys ih =>
    intro hp
    rw [List.pairwise_cons] at hp
    by_cases h : le y x = true
    · rw [show insertBy le x (y :: ys) = y :: insertBy le x ys from by simp [insertBy, h]]
      rw [List.pairwise_cons]
      constructor
      · intro b hb
        rcases List.mem_cons.mp ((insertBy_perm le x ys).mem_iff.mp hb) with hb | hb
        · exact hb ▸ h
        · exact hp.1 b hb
      · exact ih hp.2
    · rw [show insertBy le x (y :: ys) = x :: y :: ys from by simp [insertBy, h]]
      have hxy : le x y = true := (htotal x y).resolve_right (by simpa using h)
      rw [List.pairwise_cons]
      constructor
      · intro b hb
        rcases List.mem_cons.mp hb with hb | hb
        · exact hb ▸ hxy
        · exact htrans x y b hxy (hp.1 b hb)
      · exact List.pairwise_cons.mpr hp

theorem sortBy_pairwise {le : α → α → Bool}
    (htotal : ∀ a b, le a b = true ∨ le b a = true)
    (htrans : ∀ a b e, le a b = true → le b e = true → le a e = true)
    (l : List α) : (sortBy le l).Pairwise (fun a b => le a b = true) := by
  suffices h : ∀ acc : List α, acc.Pairwise (fun a b => le a b = true) →
      (l.foldl (fun a x => insertBy le x a) acc).Pairwise (fun a b => le a b = true) by
    exact h [] (by simp)
  induction l with
  | nil => intro acc hacc; simpa using hacc
  | cons x xs ih =>
    intro acc hacc
    exact ih (insertBy le x acc) (insertBy_pairwise htotal htrans x acc hacc)

/-! ## Repository packages and the package index

`src/debian/package_index.rs` with the `RepositoryPackage` record it stores.
`HashMap<String, Vec<RepositoryPackage>>` is modelled as an association list;
only `entry().or_default().push` and `get` are used by the source. -/

/-- Modelled from the spec: the `RepositoryPackage` record
(`src/debian/repository_package.rs` is absent from the sources; the fields are
the ones spec §3 lists and the ones `src` reads:
`(repository_uri, name, version, filename, sha256, depends?, pre_depends?,
provides?)`). -/
structure RepositoryPackage where
  repository_uri : String
  name : String
  version : String
  filename : String
  sha256sum : String
  depends : Option String
  pre_depends : Option String
  provides : Option String
deriving DecidableEq, Repr

def isAsciiSpace (ch : Char) : Bool :=
  ch = ' ' || ch = '\t'

def trimChars (cs : List Char) : List Char :=
  ((cs.dropWhile isAsciiSpace).reverse.dropWhile isAsciiSpace).reverse

/-- Modelled from the spec: parsing of a raw comma-separated dependency field
(spec §3/§4.3: "split by `,`, trim, take first atom of each alternative, strip
version predicate"; empty atoms yield no name). -/
def parseDependencyNames : Option String → List String
  | none => []
  | some raw =>
    (splitOnChar ',' raw.data).filterMap (fun dep =>
      let atom := trimChars (dep.takeWhile (fun ch => ch != '|' && ch != '('))
      if atom = [] then none else some (String.mk atom))

def RepositoryPackage.provides_dependencies (p : RepositoryPackage) : List String :=
  parseDependencyNames p.provides

def RepositoryPackage.get_dependencies (p : RepositoryPackage) : List String :=
  parseDependencyNames p.depends ++ parseDependencyNames p.pre_depends

def lookupAssoc {α : Type u} : List (String × α) → String → Option α
  | [], _ => none
  | (k, v) :: rest, key => if k = key then some v else lookupAssoc rest key

def pushAssoc {α : Type u} (m : List (String × List α)) (key : String) (v : α) :
    List (String × List α) :=
  match m with
  | [] => [(key, [v])]
  | (k, vs) :: rest =>
    if k = key then (k, vs ++ [v]) :: rest else (k, vs) :: pushAssoc rest key v

/-- The in-memory package index of `src/debian/package_index.rs`. -/
structure PackageIndex where
  name_to_repository_packages : List (String × List RepositoryPackage)
  provides_to_packages : List (String × List RepositoryPackage)
  packages_indexed : Nat
deriving DecidableEq, Repr

/-- Embedding of `PackageIndex::default()`. -/
def PackageIndex.empty : PackageIndex :=
  ⟨[], [], 0⟩

/-- Embedding of `PackageIndex::add_package`. -/
def PackageIndex.add_package (idx : PackageIndex) (package : RepositoryPackage) :
    PackageIndex where
  name_to_repository_packages :=
    pushAssoc idx.name_to_repository_packages package.name package
  provides_to_packages :=
    package.provides_dependencies.foldl
      (fun m pr => pushAssoc m pr package) idx.provides_to_packages
  packages_indexed := idx.packages_indexed + 1

def buildIndex (packages : List RepositoryPackage) : PackageIndex :=
  packages.foldl PackageIndex.add_package PackageIndex.empty

/-- The sort comparator of `get_highest_available_version`:
`sort_by(|(_, version_a), (_, version_b)| version_b.cmp(version_a))`, turned
into the boolean order "comparator is not Greater". -/
def highestLe (a b : RepositoryPackage × DebVersion) : Bool :=
  cmpDebVersion b.2 a.2 ≠ .gt

/-- The body of the version-collecting loop of
`get_highest_available_version`: parsing one stored version, where the
`expect("Packages should always have a valid debian version")` panic is
modelled as `Except.error ()`. -/
def parseVersionStep (p : RepositoryPackage) :
    Except Unit (RepositoryPackage × DebVersion) :=
  match parseDebVersion p.version with
  | some v => Except.ok (p, v)
  | none => Except.error ()

/-- A loop that applies a fallible step to every element, stopping at the
first failure (a `for` loop whose body may panic). -/
def mapExcept (f : α → Except ε β) : List α → Except ε (List β)
  | [] => Except.ok []
  | a :: l =>
    match f a with
    | Except.error e => Except.error e
    | Except.ok b =>
      match mapExcept f l with
      | Except.error e => Except.error e
      | Except.ok bs => Except.ok (b :: bs)

/-- Embedding of `PackageIndex::get_highest_available_version`. -/
def PackageIndex.get_highest_available_version (idx : PackageIndex)
    (package_name : String) : Except Unit (Option RepositoryPackage) :=
  match lookupAssoc idx.name_to_repository_packages package_name with
  | none => Except.ok none
  | some repository_packages =>
    match mapExcept parseVersionStep repository_packages with
    | Except.error e => Except.error e
    | Except.ok sorted_repository_packages =>
      Except.ok ((sortBy highestLe sorted_repository_packages).head?.map Prod.fst)

/-- Embedding of `PackageIndex::get_virtual_package_providers`, as consumed by the
resolver: the names of the packages recorded under a `Provides` entry
(`get_providers` in `determine_packages_to_install.rs`). -/
def PackageIndex.get_providers (idx : PackageIndex) (package : String) :
    List String :=
  ((lookupAssoc idx.provides_to_packages package).getD []).map (·.name)

def testPkg (name version : String) : RepositoryPackage :=
  ⟨"test-repository", name, version, "test-filename", "test-sha256sum",
    none, none, none⟩

example :
    (buildIndex [testPkg "my-package" "1.0.0", testPkg "my-package" "2.0.0",
      testPkg "my-package" "1.5.0"]).get_highest_available_version "my-package"
    = Except.ok (some (testPkg "my-package" "2.0.0")) := rfl

example :
    PackageIndex.empty.get_highest_available_version "my-package"
    = Except.ok none := rfl

example :
    (buildIndex [⟨"", "libvips42", "8.12.1-1build1", "", "", none, none,
      some "libvips"⟩]).get_providers "libvips" = ["libvips42"] := by decide

/-! ### What `add_package` stores under a name -/

theorem lookupAssoc_pushAssoc {α : Type u} (m : List (String × List α))
    (k : String) (v : α) (q : String) :
    lookupAssoc (pushAssoc m k v) q
    = if q = k then some ((lookupAssoc m k).getD [] ++ [v]) else lookupAssoc m q := by
  induction m with
  | nil =>
    by_cases h : q = k
    · simp [pushAssoc, lookupAssoc, h]
    · have h' : ¬k = q := fun hh => h hh.symm
      simp [pushAssoc, lookupAssoc, h, h']
  | cons kv rest ih =>
    obtain ⟨k0, vs⟩ := kv
    by_cases h0 : k0 = k
    · subst h0
      by_cases h : q = k0
      · subst h
        simp [pushAssoc, lookupAssoc]
      · have h' : ¬k0 = q := fun hh => h hh.symm
        simp [pushAssoc, lookupAssoc, h, h']
    · by_cases h : q = k0
      · subst h
        have h2 : ¬q = k := fun hh => h0 (hh ▸ rfl)
        simp [pushAssoc, lookupAssoc, h0, h2]
      · have h' : ¬k0 = q := fun hh => h hh.symm
        simp [pushAssoc, lookupAssoc, h0, h', ih]

/-- Append a batch of entries to an optional entry list, the way repeated
`entry().or_default().push` grows a map entry. -/
def optEntries {α : Type u} (o : Option (List α)) (l : List α) : Option (List α) :=
  match o, l with
  | none, [] => none
  | none, l => some l
  | some e, l => some (e ++ l)

theorem optEntries_nil {α : Type u} (o : Option (List α)) : optEntries o [] = o := by
  cases o <;> simp [optEntries]

theorem optEntries_append {α : Type u} (o : Option (List α)) (l1 l2 : List α) :
    optEntries (optEntries o l1) l2 = optEntries o (l1 ++ l2) := by
  cases o with
  | none =>
    cases l1 with
    | nil => rfl
    | cons x xs => simp [optEntries]
  | some e => simp [optEntries]

theorem optEntries_single {α : Type u} (o : Option (List α)) (v : α) :
    optEntries o [v] = some (o.getD [] ++ [v]) := by
  cases o <;> rfl

theorem lookup_add_package (idx : PackageIndex) (p : RepositoryPackage)
    (name : String) :
    lookupAssoc (idx.add_package p).name_to_repository_packages name
    = optEntries (lookupAssoc idx.name_to_repository_packages name)
        (if p.name = name then [p] else []) := by
  show lookupAssoc (pushAssoc idx.name_to_repository_packages p.name p) name = _
  rw [lookupAssoc_pushAssoc]
  by_cases h : p.name = name
  · rw [if_pos h.symm, if_pos h, optEntries_single, h]
  · rw [if_neg (fun hh => h hh.symm), if_neg h, optEntries_nil]

theorem lookup_foldl_add (ops : List RepositoryPackage) :
    ∀ (idx : PackageIndex) (name : String),
      lookupAssoc (ops.foldl PackageIndex.add_package idx).name_to_repository_packages name
      = optEntries (lookupAssoc idx.name_to_repository_packages name)
          (ops.filter (fun p => p.name = name)) := by
  induction ops with
  | nil => intro idx name; simp [optEntries_nil]
  | cons p ops ih =>
    intro idx name
    have e1 : (p :: ops).foldl PackageIndex.add_package idx
        = ops.foldl PackageIndex.add_package (idx.add_package p) := rfl
    rw [e1, ih, lookup_add_package, optEntries_append, List.filter_cons]
    by_cases h : p.name = name <;> simp [h]

theorem lookup_buildIndex (ops : List RepositoryPackage) (name : String) :
    lookupAssoc (buildIndex ops).name_to_repository_packages name
    = optEntries none (ops.filter (fun p => p.name = name)) := by
  rw [buildIndex, lookup_foldl_add]
  rfl

/-! ### The version-parsing loop of `get_highest_available_version` -/

theorem mapExcept_parse_ok (l : List RepositoryPackage)
    (h : ∀ p ∈ l, (parseDebVersion p.version).isSome) :
    mapExcept parseVersionStep l
    = Except.ok (l.map (fun p => (p, (parseDebVersion p.version).getD ⟨0, [], []⟩))) := by
  induction l with
  | nil => rfl
  | cons p l ih =>
    obtain ⟨v, hv⟩ := Option.isSome_iff_exists.mp (h p (List.mem_cons_self p l))
    rw [mapExcept, ih (fun q hq => h q (List.mem_cons_of_mem p hq))]
    simp [parseVersionStep, hv]

theorem mapExcept_parse_err (l : List RepositoryPackage) (p : RepositoryPackage)
    (hp : p ∈ l) (h : parseDebVersion p.version = none) :
    mapExcept parseVersionStep l = Except.error () := by
  induction l with
  | nil => simp at hp
  | cons a l ih =>
    rw [mapExcept]
    cases ha : parseDebVersion a.version with
    | none => simp [parseVersionStep, ha]
    | some v =>
      have hpl : p ∈ l := by
        rcases List.mem_cons.mp hp with rfl | hpl
        · rw [h] at ha; cases ha
        · exact hpl
      simp [parseVersionStep, ha, ih hpl]

theorem highestLe_trans (a b e : RepositoryPackage × DebVersion)
    (hab : highestLe a b = true) (hbe : highestLe b e = true) :
    highestLe a e = true := by
  simp only [highestLe, decide_eq_true_eq] at hab hbe ⊢
  exact cmpDebVersion_laws.le_trans e.2 b.2 a.2 hbe hab

theorem highestLe_total (a b : RepositoryPackage × DebVersion) :
    highestLe a b = true ∨ highestLe b a = true := by
  simp only [highestLe, decide_eq_true_eq]
  by_cases h : cmpDebVersion b.2 a.2 = .gt
  · right
    rw [cmpDebVersion_laws.symm a.2 b.2, h]
    decide
  · exact .inl h

/-! ## Claims C4 and C10 -/

/-- C4: for every sequence of `add_package` calls building a `PackageIndex`
(with every version string a valid Debian version) and for every package `p`
that was added, `get_highest_available_version p.name` returns some package
whose version is greater than or equal to `p`'s version under Debian
version ordering; for a name never added it returns none. -/
theorem c4_highest_version_sound
    (ops : List RepositoryPackage)
    (hvalid : ∀ q ∈ ops, (parseDebVersion q.version).isSome) :
    (∀ p ∈ ops, ∃ q vp vq,
        (buildIndex ops).get_highest_available_version p.name
          = Except.ok (some q)
        ∧ parseDebVersion p.version = some vp
        ∧ parseDebVersion q.version = some vq
        ∧ cmpDebVersion vp vq ≠ .gt)
    ∧ (∀ name, (∀ q ∈ ops, q.name ≠ name) →
        (buildIndex ops).get_highest_available_version name = Except.ok none) := by
  constructor
  · intro p hp
    set l := ops.filter (fun q => q.name = p.name) with hl
    have hpl : p ∈ l := List.mem_filter.mpr ⟨hp, by simp⟩
    have hlr : lookupAssoc (buildIndex ops).name_to_repository_packages p.name
        = some l := by
      rw [lookup_buildIndex, ← hl]
      cases hx : l with
      | nil => rw [hx] at hpl; simp at hpl
      | cons a t => rfl
    have hlv : ∀ q ∈ l, (parseDebVersion q.version).isSome :=
      fun q hq => hvalid q (List.mem_filter.mp hq).1
    set parsed := l.map (fun q => (q, (parseDebVersion q.version).getD ⟨0, [], []⟩))
      with hparsed
    have hmap : mapExcept parseVersionStep l = Except.ok parsed :=
      mapExcept_parse_ok l hlv
    set srt := sortBy highestLe parsed with hsrt
    have hmem : (p, (parseDebVersion p.version).getD ⟨0, [], []⟩) ∈ srt :=
      (sortBy_perm highestLe parsed).mem_iff.mpr (List.mem_map_of_mem _ hpl)
    have hne : srt ≠ [] := fun hnil => by rw [hnil] at hmem; simp at hmem
    obtain ⟨h0, t, hht⟩ := List.exists_cons_of_ne_nil hne
    obtain ⟨qy, hqy, hq0⟩ : ∃ y ∈ l,
        h0 = (y, (parseDebVersion y.version).getD ⟨0, [], []⟩) := by
      have hmm : h0 ∈ parsed := (sortBy_perm highestLe parsed).mem_iff.mp
        (by rw [← hsrt, hht]; exact List.mem_cons_self h0 t)
      obtain ⟨y, hy, hxy⟩ := List.mem_map.mp hmm
      exact ⟨y, hy, hxy.symm⟩
    obtain ⟨vp, hvp⟩ := Option.isSome_iff_exists.mp (hvalid p hp)
    obtain ⟨vq, hvq⟩ := Option.isSome_iff_exists.mp (hlv qy hqy)
    refine ⟨qy, vp, vq, ?_, hvp, hvq, ?_⟩
    · simp only [PackageIndex.get_highest_available_version, hlr, hmap, ← hsrt, hht]
      rw [hq0]
      rfl
    · have hpairw := sortBy_pairwise highestLe_total highestLe_trans parsed
      rw [← hsrt, hht] at hpairw
      rw [hht] at hmem
      rcases List.mem_cons.mp hmem with heq | hmemt
      · have h2 := congrArg Prod.snd (heq.trans hq0)
        have hv : vp = vq := by simpa [hvp, hvq] using h2
        rw [hv, cmpDebVersion_laws.refl_eq vq]
        simp
      · have hle := (List.pairwise_cons.mp hpairw).1 _ hmemt
        have h3 : cmpDebVersion
            ((p, (parseDebVersion p.version).getD ⟨0, [], []⟩)).2 h0.2 ≠ .gt := by
          simpa [highestLe] using hle
        rw [hq0] at h3
        simpa [hvp, hvq] using h3
  · intro name hname
    have hfilter : ops.filter (fun q => q.name = name) = [] := by
      rw [List.filter_eq_nil_iff]
      intro q hq
      simp [hname q hq]
    simp [PackageIndex.get_highest_available_version, lookup_buildIndex, hfilter,
      optEntries]

/-- Witness for C4 at a concrete index with two versions of the same name. -/
theorem c4_highest_version_sound_witness :
    (∃ q vp vq,
      (buildIndex [testPkg "my-package" "1.0.0", testPkg "my-package" "2.0.0"]).get_highest_available_version
          (testPkg "my-package" "1.0.0").name = Except.ok (some q)
      ∧ parseDebVersion (testPkg "my-package" "1.0.0").version = some vp
      ∧ parseDebVersion q.version = some vq
      ∧ cmpDebVersion vp vq ≠ .gt)
    ∧ (buildIndex [testPkg "my-package" "1.0.0", testPkg "my-package" "2.0.0"]).get_highest_available_version
        "absent" = Except.ok none :=
  ⟨(c4_highest_version_sound _ (by decide)).1 _ (by decide),
    (c4_highest_version_sound _ (by decide)).2 "absent" (by decide)⟩

/-- C10: `get_highest_available_version` is total only under the precondition
that every version stored for the queried name parses as a Debian version:
under it the panic branch is unreachable, while adding a package whose version
does not parse makes a later query for that name panic (model: `Except.error`)
instead of returning an error value. -/
theorem c10_parse_totality
    (idx : PackageIndex) (name : String) (p : RepositoryPackage) :
    ((∀ q ∈ (lookupAssoc idx.name_to_repository_packages name).getD [],
        (parseDebVersion q.version).isSome) →
      ∃ r, idx.get_highest_available_version name = Except.ok r)
    ∧ (parseDebVersion p.version = none →
      (idx.add_package p).get_highest_available_version p.name
        = Except.error ()) := by
  constructor
  · intro hv
    cases hx : lookupAssoc idx.name_to_repository_packages name with
    | none => exact ⟨none, by simp [PackageIndex.get_highest_available_version, hx]⟩
    | some l =>
      rw [hx] at hv
      have hmap := mapExcept_parse_ok l hv
      refine ⟨(sortBy highestLe (l.map (fun q =>
        (q, (parseDebVersion q.version).getD ⟨0, [], []⟩)))).head?.map Prod.fst, ?_⟩
      simp only [PackageIndex.get_highest_available_version, hx, hmap]
  · intro hnone
    have hlk := lookup_add_package idx p p.name
    rw [if_pos rfl, optEntries_single] at hlk
    have hm := mapExcept_parse_err
      ((lookupAssoc idx.name_to_repository_packages p.name).getD [] ++ [p]) p
      (by simp) hnone
    simp [PackageIndex.get_highest_available_version, hlk, hm]

/-- Witness for C10: an invalid version `"abc:1"` panics the query, and a
valid index yields a value. -/
theorem c10_parse_totality_witness :
    ((PackageIndex.empty.add_package (testPkg "bad" "abc:1")).get_highest_available_version
        (testPkg "bad" "abc:1").name = Except.error ())
    ∧ (∃ r, PackageIndex.empty.get_highest_available_version "nothing"
        = Except.ok r) :=
  ⟨(c10_parse_totality PackageIndex.empty "x" (testPkg "bad" "abc:1")).2 (by decide),
    (c10_parse_totality PackageIndex.empty "nothing" (testPkg "bad" "abc:1")).1
      (by decide)⟩

/-! ## The dependency resolver

`src/determine_packages_to_install.rs`.  `IndexMap`/`IndexSet` are modelled as
ordered association lists / ordered duplicate-free lists with the insertion
semantics of the `indexmap` crate (an existing key keeps its position). -/

/-- Modelled from the spec: one record of the parsed dpkg status database
(`apt_parser::Control`, an external crate); the resolver only reads the
`package` and `version` fields. -/
structure Control where
  package : String
  version : String
deriving DecidableEq, Repr

structure InstallRecord where
  repository_package : RepositoryPackage
  dependency_path : List String
deriving DecidableEq, Repr

/-- Modelled from the spec: `RequestedPackage`
(`src/config/requested_package.rs` is absent from the sources; spec §3:
`(name, skip_dependencies: bool, force: bool)`, matching the config tests in
`src/config/buildpack_config.rs`). -/
structure RequestedPackage where
  name : String
  skip_dependencies : Bool
  force : Bool
deriving DecidableEq, Repr

inductive DependencyWarning
  | AlreadyInstalledOnSystem (requested_package system_package_name
      system_package_version : String)
  | AlreadyInstalledByOtherPackage (requested_package : String)
      (installed_package : RepositoryPackage) (installed_by : String)
  | VirtualPackageHasOnlyOneImplementor (requested_package : String)
      (implementor : RepositoryPackage)
deriving DecidableEq, Repr

/-- Resolution failure: the two `DeterminePackagesToInstallError` variants the
resolver itself produces, plus the modelled panics (`expect` calls). -/
inductive ResolveErr
  | panicked
  | PackageNotFound (package : String)
  | VirtualPackageMustBeSpecified (package : String) (providers : List String)
deriving DecidableEq, Repr

/-- Embedding of `IndexMap::insert`: an existing key keeps its position and gets the new
value, a new key is appended. -/
def indexMapInsert {α : Type u} (m : List (String × α)) (k : String) (v : α) :
    List (String × α) :=
  match m with
  | [] => [(k, v)]
  | (k0, v0) :: rest =>
    if k0 = k then (k0, v) :: rest else (k0, v0) :: indexMapInsert rest k v

def indexMapContains {α : Type u} (m : List (String × α)) (k : String) : Bool :=
  (lookupAssoc m k).isSome

/-- Embedding of `IndexSet::insert`: an existing element keeps its position, a new one is
appended. -/
def indexSetInsert {α : Type u} [DecidableEq α] (l : List α) (x : α) : List α :=
  if x ∈ l then l else l ++ [x]

/-- Deduplication keeping first occurrences (a `HashSet` built by insertion,
read back in first-insertion order). -/
def dedupKeepFirst {α : Type u} [DecidableEq α] (l : List α) : List α :=
  l.foldl indexSetInsert []

/-- The mutable state threaded through `visit`. -/
structure VisitState where
  visit_stack : List String
  package_install_details : List (String × InstallRecord)
  warnings : List DependencyWarning
deriving DecidableEq, Repr

/-- Embedding of `get_provider_for_virtual_package`.  The `HashSet<String>` payload of
`VirtualPackageMustBeSpecified` is modelled as the provider names
deduplicated in first-occurrence order. -/
def getProviderForVirtualPackage (package_index : PackageIndex)
    (package : String) (visit_stack : List String)
    (warnings : List DependencyWarning) :
    Except ResolveErr (RepositoryPackage × List DependencyWarning) :=
  match package_index.get_providers package with
  | [providing_package] =>
    match package_index.get_highest_available_version providing_package with
    | Except.error _ => Except.error ResolveErr.panicked
    | Except.ok none => Except.error (ResolveErr.PackageNotFound package)
    | Except.ok (some repository_package) =>
      Except.ok (repository_package,
        if visit_stack = [] then
          warnings ++ [DependencyWarning.VirtualPackageHasOnlyOneImplementor
            package repository_package]
        else warnings)
  | [] => Except.error (ResolveErr.PackageNotFound package)
  | providers =>
    Except.error (ResolveErr.VirtualPackageMustBeSpecified package
      (dedupKeepFirst providers))

/-- The dependency loop of `visit`: a dependency already on the system or
already recorded in this request's install details is skipped, otherwise
`visitCall` recurses into it; the first error aborts the loop. -/
def runDeps (system_packages : List (String × Control))
    (visitCall : String → VisitState → Option (Except ResolveErr VisitState)) :
    List String → VisitState → Option (Except ResolveErr VisitState)
  | [], st => some (Except.ok st)
  | dependency :: rest, st =>
    let already_processed := indexMapContains system_packages dependency
      || indexMapContains st.package_install_details dependency
    if already_processed then runDeps system_packages visitCall rest st
    else
      match visitCall dependency st with
      | none => none
      | some (Except.error e) => some (Except.error e)
      | some (Except.ok st2) => runDeps system_packages visitCall rest st2

/-- Embedding of `visit` of `determine_packages_to_install.rs`, with a fuel argument
bounding the recursion depth (`none` = fuel exhausted). -/
def visit (package_index : PackageIndex)
    (system_packages : List (String × Control))
    (system_install_details : List (String × InstallRecord)) :
    Nat → String → Bool → VisitState → Option (Except ResolveErr VisitState)
  | 0, _, _, _ => none
  | fuel + 1, package, skip_dependencies, st =>
    match lookupAssoc system_packages package with
    | some system_package =>
      if st.visit_stack = [] then
        some (Except.ok { st with warnings := st.warnings ++
          [DependencyWarning.AlreadyInstalledOnSystem package
            system_package.package system_package.version] })
      else some (Except.ok st)
    | none =>
    match lookupAssoc system_install_details package with
    | some install_record =>
      if st.visit_stack = [] then
        match install_record.dependency_path.head? with
        | none => some (Except.error ResolveErr.panicked)
        | some installed_by =>
          some (Except.ok { st with warnings := st.warnings ++
            [DependencyWarning.AlreadyInstalledByOtherPackage package
              install_record.repository_package installed_by] })
      else some (Except.ok st)
    | none =>
    match package_index.get_highest_available_version package with
    | Except.error _ => some (Except.error ResolveErr.panicked)
    | Except.ok (some package_found) =>
      let st1 : VisitState :=
        { visit_stack := indexSetInsert st.visit_stack package_found.name
          package_install_details := indexMapInsert st.package_install_details
            package_found.name ⟨package_found, st.visit_stack⟩
          warnings := st.warnings }
      let afterDeps :=
        if skip_dependencies then some (Except.ok st1)
        else runDeps system_packages
          (fun d st2 => visit package_index system_packages
            system_install_details fuel d skip_dependencies st2)
          package_found.get_dependencies st1
      match afterDeps with
      | none => none
      | some (Except.error e) => some (Except.error e)
      | some (Except.ok st2) =>
        some (Except.ok { st2 with
          visit_stack := st2.visit_stack.erase package_found.name })
    | Except.ok none =>
      match getProviderForVirtualPackage package_index package st.visit_stack
        st.warnings with
      | Except.error e => some (Except.error e)
      | Except.ok (virtual_package_provider, ws) =>
        visit package_index system_packages system_install_details fuel
          virtual_package_provider.name skip_dependencies
          { st with warnings := ws }

/-- The top-level loop of `determine_packages_to_install`: one `visit` per
requested package with a fresh stack and fresh per-request details, merging
the request's details into the accumulated `system_install_details`.
The `force` field of a requested package is never consulted: only `name` and
`skip_dependencies` reach `visit`. -/
def determineGo (package_index : PackageIndex)
    (system_packages : List (String × Control)) (fuel : Nat) :
    List RequestedPackage → List (String × InstallRecord) →
    List DependencyWarning →
    Option (Except ResolveErr (List RepositoryPackage × List DependencyWarning))
  | [], system_install_details, warnings =>
    some (Except.ok
      (system_install_details.map (fun kv => kv.2.repository_package), warnings))
  | requested_package :: rest, system_install_details, warnings =>
    match visit package_index system_packages system_install_details fuel
      requested_package.name requested_package.skip_dependencies
      ⟨[], [], warnings⟩ with
    | none => none
    | some (Except.error e) => some (Except.error e)
    | some (Except.ok st) =>
      determineGo package_index system_packages fuel rest
        (st.package_install_details.foldl
          (fun m kv => indexMapInsert m kv.1 kv.2) system_install_details)
        st.warnings

def determine_packages_to_install (package_index : PackageIndex)
    (system_packages : List (String × Control)) (fuel : Nat)
    (requested_packages : List RequestedPackage) :
    Option (Except ResolveErr (List RepositoryPackage × List DependencyWarning)) :=
  determineGo package_index system_packages fuel requested_packages [] []

example :
    visit (buildIndex [testPkg "package-a" "1.0.0"])
      [("package-a", ⟨"package-a", "1.0.0"⟩)] [] 5 "package-a" false ⟨[], [], []⟩
    = some (Except.ok ⟨[], [],
        [DependencyWarning.AlreadyInstalledOnSystem "package-a" "package-a"
          "1.0.0"]⟩) := rfl

example :
    (do
      let r ← visit (buildIndex [
          ⟨"", "package-a", "1.0.0", "", "", some "package-b", none, none⟩,
          ⟨"", "package-b", "1.0.0", "", "", some "package-c,package-d", none, none⟩,
          ⟨"", "package-c", "1.0.0", "", "", some "package-a", none, none⟩,
          ⟨"", "package-d", "1.0.0", "", "", none, none, none⟩])
        [] [] 9 "package-a" false ⟨[], [], []⟩
      match r with
      | Except.ok st => some (st.package_install_details.map Prod.fst, st.visit_stack)
      | Except.error _ => none)
    = some (["package-a", "package-b", "package-c", "package-d"], []) := by
  decide

example :
    (match visit (buildIndex [⟨"", "libvips42", "8.12.1-1build1", "", "", none,
        none, some "libvips"⟩]) [] [] 5 "libvips" false ⟨[], [], []⟩ with
      | some (Except.ok st) =>
        some (st.package_install_details.map Prod.fst, st.warnings.length)
      | _ => none)
    = some (["libvips42"], 1) := by decide

/-! ## Claim C1 -/

/-- C1 (claim refuted by the code, `code_bug`): the resolver ignores the
`force` flag of a requested package entirely — `determine_packages_to_install`
passes only `name` and `skip_dependencies` to `visit`, so a forced top-level
request for a package that is already installed on the system is skipped with
an `AlreadyInstalledOnSystem` warning and nothing is recorded for install,
even though the claim (and the repository's own integration tests, which
expect an output containing "(forced)") requires the package to be recorded. -/
theorem c1_force_is_ignored :
    determine_packages_to_install (buildIndex [testPkg "curl" "7.81.0-1"])
      [("curl", ⟨"curl", "7.81.0-1"⟩)] 5
      [⟨"curl", false, true⟩]
    = some (Except.ok ([],
        [DependencyWarning.AlreadyInstalledOnSystem "curl" "curl"
          "7.81.0-1"])) := rfl

/-! ## Claim C6 -/

/-- C6: resolving a name with no real package in the index: zero recorded
providers fail with `PackageNotFound`, two or more fail with
`VirtualPackageMustBeSpecified` listing the provider names, and exactly one
provider resolves to that provider's package, warning
`VirtualPackageHasOnlyOneImplementor` only when the visit stack is empty
(a top-level request). -/
theorem c6_virtual_package_resolution
    (package_index : PackageIndex) (name : String) (visit_stack : List String)
    (warnings : List DependencyWarning) :
    (package_index.get_providers name = [] →
      getProviderForVirtualPackage package_index name visit_stack warnings
        = Except.error (ResolveErr.PackageNotFound name))
    ∧ (2 ≤ (package_index.get_providers name).length →
      getProviderForVirtualPackage package_index name visit_stack warnings
        = Except.error (ResolveErr.VirtualPackageMustBeSpecified name
            (dedupKeepFirst (package_index.get_providers name))))
    ∧ (∀ providing_package repository_package,
      package_index.get_providers name = [providing_package] →
      package_index.get_highest_available_version providing_package
        = Except.ok (some repository_package) →
      getProviderForVirtualPackage package_index name visit_stack warnings
        = Except.ok (repository_package,
            if visit_stack = [] then
              warnings ++ [DependencyWarning.VirtualPackageHasOnlyOneImplementor
                name repository_package]
            else warnings)) := by
  refine ⟨?_, ?_, ?_⟩
  · intro h
    simp only [getProviderForVirtualPackage, h]
  · intro h2
    cases hx : package_index.get_providers name with
    | nil => rw [hx] at h2; simp at h2
    | cons a t =>
      cases t with
      | nil => rw [hx] at h2; simp at h2
      | cons b t2 =>
        simp only [getProviderForVirtualPackage, hx]
  · intro providing_package repository_package h1 hhi
    simp only [getProviderForVirtualPackage, h1, hhi]

def virtualProviderPkg (name : String) (provides : String) : RepositoryPackage :=
  ⟨"", name, "1.0.0", "", "", none, none, some provides⟩

/-- Witness for C6 at three concrete indexes: no provider, two providers, and
a single provider (top-level visit). -/
theorem c6_virtual_package_resolution_witness :
    (getProviderForVirtualPackage PackageIndex.empty "virtual-package" [] []
      = Except.error (ResolveErr.PackageNotFound "virtual-package"))
    ∧ (getProviderForVirtualPackage
        (buildIndex [virtualProviderPkg "provider1" "virtual-package",
          virtualProviderPkg "provider2" "virtual-package"])
        "virtual-package" [] []
      = Except.error (ResolveErr.VirtualPackageMustBeSpecified "virtual-package"
          ["provider1", "provider2"]))
    ∧ (getProviderForVirtualPackage
        (buildIndex [virtualProviderPkg "libvips42" "libvips"]) "libvips" [] []
      = Except.ok (virtualProviderPkg "libvips42" "libvips",
          [DependencyWarning.VirtualPackageHasOnlyOneImplementor "libvips"
            (virtualProviderPkg "libvips42" "libvips")])) := by
  refine ⟨(c6_virtual_package_resolution PackageIndex.empty "virtual-package"
      [] []).1 (by decide), ?_, ?_⟩
  · have h := (c6_virtual_package_resolution
      (buildIndex [virtualProviderPkg "provider1" "virtual-package",
        virtualProviderPkg "provider2" "virtual-package"])
      "virtual-package" [] []).2.1 (by decide)
    rw [h]
    rfl
  · have h := (c6_virtual_package_resolution
      (buildIndex [virtualProviderPkg "libvips42" "libvips"]) "libvips" [] []).2.2
      "libvips42" (virtualProviderPkg "libvips42" "libvips") (by decide) rfl
    rw [h]
    rfl

/-! ## Claim C5 -/

theorem get_highest_of_lookup_singleton (idx : PackageIndex) (name : String)
    (p : RepositoryPackage) (v : DebVersion)
    (hl : lookupAssoc idx.name_to_repository_packages name = some [p])
    (hv : parseDebVersion p.version = some v) :
    idx.get_highest_available_version name = Except.ok (some p) := by
  simp only [PackageIndex.get_highest_available_version, hl]
  have hm : mapExcept parseVersionStep [p] = Except.ok [(p, v)] := by
    simp [mapExcept, parseVersionStep, hv]
  rw [hm]
  rfl

theorem lookup_pair_left (pA pB : RepositoryPackage) (hne : pA.name ≠ pB.name) :
    lookupAssoc (buildIndex [pA, pB]).name_to_repository_packages pA.name
      = some [pA] := by
  rw [lookup_buildIndex]
  simp [List.filter_cons, Ne.symm hne, optEntries]

theorem lookup_pair_right (pA pB : RepositoryPackage) (hne : pA.name ≠ pB.name) :
    lookupAssoc (buildIndex [pA, pB]).name_to_repository_packages pB.name
      = some [pB] := by
  rw [lookup_buildIndex]
  simp [List.filter_cons, hne, optEntries]

/-- C5: if the package index holds packages A and B that depend on each
other, visiting A (not on the system, nothing yet recorded) terminates — any
fuel of at least 3 produces the same successful result — and each of A and B
appears exactly once in the resulting ordered install map. -/
theorem c5_cycle_safety
    (pA pB : RepositoryPackage) (fuel : Nat)
    (hne : pA.name ≠ pB.name)
    (hvA : (parseDebVersion pA.version).isSome)
    (hvB : (parseDebVersion pB.version).isSome)
    (hdA : pA.get_dependencies = [pB.name])
    (hdB : pB.get_dependencies = [pA.name])
    (hfuel : 3 ≤ fuel) :
    visit (buildIndex [pA, pB]) [] [] fuel pA.name false ⟨[], [], []⟩
      = some (Except.ok ⟨[],
          [(pA.name, ⟨pA, []⟩), (pB.name, ⟨pB, [pA.name]⟩)], []⟩)
    ∧ ([(pA.name, (⟨pA, []⟩ : InstallRecord)),
        (pB.name, ⟨pB, [pA.name]⟩)].map Prod.fst).count pA.name = 1
    ∧ ([(pA.name, (⟨pA, []⟩ : InstallRecord)),
        (pB.name, ⟨pB, [pA.name]⟩)].map Prod.fst).count pB.name = 1 := by
  obtain ⟨vA, hvA2⟩ := Option.isSome_iff_exists.mp hvA
  obtain ⟨vB, hvB2⟩ := Option.isSome_iff_exists.mp hvB
  obtain ⟨n, rfl⟩ : ∃ n, fuel = n + 3 := ⟨fuel - 3, by omega⟩
  have hA := get_highest_of_lookup_singleton _ _ _ _ (lookup_pair_left pA pB hne) hvA2
  have hB := get_highest_of_lookup_singleton _ _ _ _ (lookup_pair_right pA pB hne) hvB2
  refine ⟨?_, ?_, ?_⟩
  · simp only [visit, runDeps, lookupAssoc, hA, hB, hdA, hdB,
      indexMapContains, indexMapInsert, indexSetInsert, List.erase_cons,
      beq_iff_eq, List.mem_singleton, List.mem_cons, List.not_mem_nil,
      hne, Ne.symm hne, if_true, if_false, ite_false, ite_true,
      Option.isSome_none, Bool.or_self, Bool.false_or, reduceIte]
    simp [hne, Ne.symm hne, List.erase_cons, visit, runDeps, lookupAssoc,
      indexMapContains, indexMapInsert, indexSetInsert]
  · simp [List.count_cons, Ne.symm hne]
  · simp [List.count_cons, hne, Ne.symm hne]

/-- Witness for C5 at two concrete mutually dependent packages. -/
theorem c5_cycle_safety_witness :
    (visit (buildIndex [⟨"", "package-a", "1.0.0", "", "", some "package-b", none, none⟩,
        ⟨"", "package-b", "1.0.0", "", "", some "package-a", none, none⟩])
      [] [] 3 "package-a" false ⟨[], [], []⟩
      = some (Except.ok ⟨[],
          [("package-a", ⟨⟨"", "package-a", "1.0.0", "", "", some "package-b", none, none⟩, []⟩),
           ("package-b", ⟨⟨"", "package-b", "1.0.0", "", "", some "package-a", none, none⟩, ["package-a"]⟩)], []⟩))
    ∧ ([("package-a", (⟨⟨"", "package-a", "1.0.0", "", "", some "package-b", none, none⟩, []⟩ : InstallRecord)),
        ("package-b", ⟨⟨"", "package-b", "1.0.0", "", "", some "package-a", none, none⟩, ["package-a"]⟩)].map Prod.fst).count "package-a" = 1
    ∧ ([("package-a", (⟨⟨"", "package-a", "1.0.0", "", "", some "package-b", none, none⟩, []⟩ : InstallRecord)),
        ("package-b", ⟨⟨"", "package-b", "1.0.0", "", "", some "package-a", none, none⟩, ["package-a"]⟩)].map Prod.fst).count "package-b" = 1 :=
  c5_cycle_safety
    ⟨"", "package-a", "1.0.0", "", "", some "package-b", none, none⟩
    ⟨"", "package-b", "1.0.0", "", "", some "package-a", none, none⟩
    3 (by decide) (by decide) (by decide) (by decide) (by decide) (by decide)

/-! ## pkg-config rewriting (claim C2)

`rewrite_package_config` of `src/install_packages.rs` (the same function body
as `src/on_package_install/rewrite_package_configs.rs`), operating on the file
contents.  Paths are strings of `List Char`. -/

/-- Embedding of `str::strip_prefix`: remove a leading pattern, returning the rest. -/
def stripLeading : List Char → List Char → Option (List Char)
  | [], rest => some rest
  | _, [] => none
  | p :: ps, ch :: cs => if ch = p then stripLeading ps cs else none

/-- Embedding of `str::trim_start_matches('/')`: drop every leading `/`. -/
def dropLeadingSlashes (cs : List Char) : List Char :=
  cs.dropWhile (fun ch => ch = '/')

/-- Embedding of `Path::join` then `to_string_lossy`: an absolute right operand replaces
the base, otherwise the right operand is appended behind a separator. -/
def rustJoin (base p : List Char) : List Char :=
  if p.head? = some '/' then p
  else if base = [] then p
  else if base.getLast? = some '/' then base ++ p
  else base ++ '/' :: p

/-- Embedding of `str::lines()`: split on `\n`, drop a final empty piece, strip one
trailing `\r` per line. -/
def rustLinesL (cs : List Char) : List (List Char) :=
  let parts := splitOnChar '\n' cs
  let parts2 :=
    match parts.getLast? with
    | some [] => parts.dropLast
    | _ => parts
  parts2.map (fun l =>
    match l.getLast? with
    | some c => if c = '\r' then l.dropLast else l
    | none => l)

/-- One line of `rewrite_package_config`: a line starting `prefix=` is
reparented under the install path with all leading slashes stripped from the
old value; any other line is unchanged. -/
def rewriteLine (install_path line : List Char) : List Char :=
  match stripLeading "prefix=".data line with
  | some value => "prefix=".data ++ rustJoin install_path (dropLeadingSlashes value)
  | none => line

/-- Embedding of `rewrite_package_config` on the file contents: rewrite every line and
join with `\n`. -/
def rewrite_package_config_contents (install_path contents : String) : String :=
  String.mk (joinWithChar '\n'
    ((rustLinesL contents.data).map (rewriteLine install_path.data)))

/-- The transformation the claim describes, following the spec's words
("strip a single leading `/` from the original value before joining"), for
comparison with the source's `rewriteLine`. -/
def claimRewriteLine (install_path line : List Char) : List Char :=
  match stripLeading "prefix=".data line with
  | some value =>
    "prefix=".data ++ rustJoin install_path
      (if value.head? = some '/' then value.tail else value)
  | none => line

def startsWithL : List Char → List Char → Bool
  | [], _ => true
  | _ :: _, [] => false
  | p :: ps, c :: cs => p = c && startsWithL ps cs

theorem startsWithL_append (xs ys : List Char) : startsWithL xs (xs ++ ys) = true := by
  induction xs with
  | nil => rfl
  | cons x xs ih => simp [startsWithL, ih]

theorem head_dropWhile_false {f : Char → Bool} {cs : List Char} {c : Char}
    (h : (cs.dropWhile f).head? = some c) : f c = false := by
  induction cs with
  | nil => simp [List.dropWhile] at h
  | cons a l ih =>
    rw [List.dropWhile_cons] at h
    by_cases hf : f a = true
    · rw [if_pos hf] at h; exact ih h
    · rw [if_neg hf] at h
      simp at h
      rw [← h]
      simpa using hf

/-- C2 (counterexample): on the line `prefix=//usr` the code strips both
slashes and reparents under the layer, while the claim's single-slash strip
leaves an absolute value that `join` lets replace the layer path entirely. -/
theorem c2_counterexample :
    rewriteLine "/layers/p".data "prefix=//usr".data = "prefix=/layers/p/usr".data
    ∧ claimRewriteLine "/layers/p".data "prefix=//usr".data = "prefix=/usr".data
    ∧ rewriteLine "/layers/p".data "prefix=//usr".data
        ≠ claimRewriteLine "/layers/p".data "prefix=//usr".data := by
  refine ⟨by decide, by decide, by decide⟩

/-- C2 (amended): every line not beginning `prefix=` is unchanged, and every
line `prefix=<value>` becomes `prefix=` followed by the install path joined
with the value after stripping all leading `/` characters — so the new value
always starts with the install path. -/
theorem c2_rewrite_line_spec (install_path line : List Char) :
    (stripLeading "prefix=".data line = none →
      rewriteLine install_path line = line)
    ∧ (∀ value, stripLeading "prefix=".data line = some value →
      rewriteLine install_path line
        = "prefix=".data ++ rustJoin install_path (dropLeadingSlashes value)
      ∧ startsWithL install_path
          (rustJoin install_path (dropLeadingSlashes value)) = true) := by
  constructor
  · intro h
    simp only [rewriteLine, h]
  · intro value hv
    refine ⟨by simp only [rewriteLine, hv], ?_⟩
    rw [rustJoin]
    have hhead : (dropLeadingSlashes value).head? ≠ some '/' := by
      intro hc
      have := head_dropWhile_false (f := fun ch => ch = '/') hc
      simp at this
    rw [if_neg hhead]
    by_cases hbase : install_path = []
    · subst hbase; rfl
    · rw [if_neg hbase]
      by_cases hlast : install_path.getLast? = some '/'
      · rw [if_pos hlast]
        exact startsWithL_append _ _
      · rw [if_neg hlast]
        exact startsWithL_append install_path ('/' :: dropLeadingSlashes value)

/-- Witness for the amended C2 on a concrete pkg-config line. -/
theorem c2_rewrite_line_spec_witness :
    rewriteLine "/layers/p".data "prefix=/usr".data
      = "prefix=".data ++ rustJoin "/layers/p".data (dropLeadingSlashes "/usr".data)
    ∧ startsWithL "/layers/p".data
        (rustJoin "/layers/p".data (dropLeadingSlashes "/usr".data)) = true :=
  (c2_rewrite_line_spec "/layers/p".data "prefix=/usr".data).2 "/usr".data (by decide)

example :
    rewrite_package_config_contents "/layers/p"
      "prefix=/usr\nexec_prefix=$\x7bprefix\x7d\nlibdir=$\x7bprefix\x7d/lib"
    = "prefix=/layers/p/usr\nexec_prefix=$\x7bprefix\x7d\nlibdir=$\x7bprefix\x7d/lib" := by
  decide

/-! ## Download and checksum verification (claim C3)

The pure core of `download` / `download_and_extract` of
`src/install_packages.rs`: the HTTP response body is given as bytes (transport
and filesystem failures are out of this embedding), the SHA-256 hasher is the
`sha2` crate, passed as a function from bytes to its hex digest. -/

inductive InstallPackagesError
  | InvalidFilename (package_name filename : String)
  | ChecksumFailed (url : String) (expected : String) (actual : String)
deriving DecidableEq, Repr

def build_download_url (repository_package : RepositoryPackage) : String :=
  String.mk (repository_package.repository_uri.data ++ '/' ::
    repository_package.filename.data)

/-- Embedding of `Path::file_name` of the package `filename`: the last component, with
empty and `.` components dropped, and `none` for a path ending in `..` or
with no component at all. -/
def rustFileName (path : List Char) : Option (List Char) :=
  let comps := (splitOnChar '/' path).filter
    (fun comp => comp ≠ [] ∧ comp ≠ ['.'])
  match comps.getLast? with
  | none => none
  | some comp => if comp = "..".data then none else some comp

/-- Embedding of `env::temp_dir()` of the build container. -/
def tempDir : List Char := "/tmp".data

/-- Embedding of `download`: validate the filename, stream the body through the hasher,
then compare the digest with the declared sha256; a mismatch is
`ChecksumFailed` carrying the url, the expected and the actual hash. -/
def download (hashHex : List Nat → String)
    (repository_package : RepositoryPackage) (body : List Nat) :
    Except InstallPackagesError String :=
  match rustFileName repository_package.filename.data with
  | none => Except.error (InstallPackagesError.InvalidFilename
      repository_package.name repository_package.filename)
  | some download_file_name =>
    let download_path := String.mk (rustJoin tempDir download_file_name)
    let calculated_hash := hashHex body
    let hash := repository_package.sha256sum
    if hash ≠ calculated_hash then
      Except.error (InstallPackagesError.ChecksumFailed
        (build_download_url repository_package) hash calculated_hash)
    else Except.ok download_path

/-- Embedding of `download_and_extract`: `extract` runs only on the path `download`
returned. -/
def download_and_extract (hashHex : List Nat → String)
    (extractStep : String → Except InstallPackagesError Unit)
    (repository_package : RepositoryPackage) (body : List Nat) :
    Except InstallPackagesError Unit :=
  match download hashHex repository_package body with
  | Except.error e => Except.error e
  | Except.ok download_path => extractStep download_path

/-- C3: a SHA-256 digest differing from the declared sha256 makes the
download step fail with `ChecksumFailed` (url, expected, actual) for every
possible extract step — so nothing is unpacked — while an equal digest hands
the downloaded file to the extract step. -/
theorem c3_checksum_gate (hashHex : List Nat → String)
    (extractStep : String → Except InstallPackagesError Unit)
    (repository_package : RepositoryPackage) (body : List Nat)
    (fn : List Char)
    (hfn : rustFileName repository_package.filename.data = some fn) :
    (hashHex body ≠ repository_package.sha256sum →
      ∀ anyExtractStep : String → Except InstallPackagesError Unit,
        download_and_extract hashHex anyExtractStep repository_package body
        = Except.error (InstallPackagesError.ChecksumFailed
            (build_download_url repository_package)
            repository_package.sha256sum (hashHex body)))
    ∧ (hashHex body = repository_package.sha256sum →
      download_and_extract hashHex extractStep repository_package body
        = extractStep (String.mk (rustJoin tempDir fn))) := by
  constructor
  · intro hne anyExtractStep
    have hne2 : repository_package.sha256sum ≠ hashHex body := fun h => hne h.symm
    simp only [download_and_extract, download, hfn, if_pos hne2]
  · intro heq
    have heq2 : ¬repository_package.sha256sum ≠ hashHex body := by
      simp [heq]
    simp only [download_and_extract, download, hfn, if_neg heq2]

/-- Witness for C3 with a concrete one-byte body and a stub hasher. -/
theorem c3_checksum_gate_witness :
    (download_and_extract (fun _ => "aaaa") (fun _ => Except.ok ())
        (testPkg "curl" "7.81.0-1") [1]
      = Except.error (InstallPackagesError.ChecksumFailed
          (build_download_url (testPkg "curl" "7.81.0-1"))
          (testPkg "curl" "7.81.0-1").sha256sum "aaaa"))
    ∧ (download_and_extract (fun _ => "test-sha256sum") (fun _ => Except.ok ())
        (testPkg "curl" "7.81.0-1") [1]
      = Except.ok ()) :=
  ⟨(c3_checksum_gate (fun _ => "aaaa") (fun _ => Except.ok ())
      (testPkg "curl" "7.81.0-1") [1] "test-filename".data (by decide)).1
      (by decide) (fun _ => Except.ok ()),
    (c3_checksum_gate (fun _ => "test-sha256sum") (fun _ => Except.ok ())
      (testPkg "curl" "7.81.0-1") [1] "test-filename".data (by decide)).2
      (by decide)⟩

/-! ## Layer environment construction (claim C7)

`configure_layer_environment`, `find_all_dirs_containing`,
`shared_library_file` and `header_file` of `src/install_packages.rs`.  The
filesystem is a list of file paths (strings); `WalkDir` yields the root and
every ancestor of a file below the root, in file order, parents first. -/

def lastComponent (p : List Char) : List Char :=
  (p.reverse.takeWhile (fun c => c ≠ '/')).reverse

/-- Embedding of `Path::parent`, as a string operation on absolute or relative paths. -/
def pathParent (p : List Char) : Option (List Char) :=
  match p with
  | [] => none
  | _ =>
    if p = ['/'] then none
    else
      match p.reverse.dropWhile (fun c => c ≠ '/') with
      | [] => some []
      | ['/'] => some ['/']
      | _ :: tail => some tail.reverse

/-- The loop of `shared_library_file` on the dot-separated parts of a file
name, last part first: it looks for an extension equal to `so`, peeling one
extension per round; a name whose only dot is a leading dot has no
extension. -/
def soLoopRev : List (List Char) → Bool
  | [] => false
  | [_] => false
  | [ext, stem] => if stem = [] then false else ext = "so".data
  | ext :: rest => (ext = "so".data : Bool) || soLoopRev rest

def shared_library_file (path : List Char) : Bool :=
  soLoopRev (splitOnChar '.' (lastComponent path)).reverse

/-- Embedding of `Path::extension` of a file name. -/
def rustExtension (name : List Char) : Option (List Char) :=
  match (splitOnChar '.' name).reverse with
  | [] => none
  | [_] => none
  | [ext, stem] => if stem = [] then none else some ext
  | ext :: _ => some ext

def header_file (path : List Char) : Bool :=
  rustExtension (lastComponent path) == some "h".data

def isUnder (root p : List Char) : Bool :=
  p == root || startsWithL (root ++ ['/']) p

/-- The walk entries a single file contributes below a root: the file and
every intermediate directory, parents first (the root itself is contributed
separately). -/
def ancestorsUpTo (root f : List Char) : List (List Char) :=
  if f == root then [root]
  else
    match stripLeading (root ++ ['/']) f with
    | none => []
    | some rest =>
      let comps := splitOnChar '/' rest
      (List.range comps.length).map (fun k =>
        root ++ '/' :: joinWithChar '/' (comps.take (k + 1)))

/-- Embedding of `WalkDir::new(root)`: nothing if the root does not exist, otherwise the
root followed by every path under it, deduplicated in first-visit order. -/
def walkEntries (fs : List (List Char)) (root : List Char) : List (List Char) :=
  if fs.any (fun f => isUnder root f) then
    dedupKeepFirst (root :: fs.foldr (fun f acc => ancestorsUpTo root f ++ acc) [])
  else []

/-- Embedding of `find_all_dirs_containing`: the parent of every walk entry satisfying the
condition, ordered by descending path length (stable). -/
def find_all_dirs_containing (fs : List (List Char)) (starting_dir : List Char)
    (condition : List Char → Bool) : List (List Char) :=
  let matchList := (walkEntries fs starting_dir).filterMap (fun entry =>
    match pathParent entry with
    | some parent_dir => if condition entry then some parent_dir else none
    | none => none)
  sortBy (fun d1 d2 => decide (d2.length ≤ d1.length)) matchList

def libraryRoots (install_path multiarch_name : List Char) : List (List Char) :=
  [rustJoin install_path ("usr/lib/".data ++ multiarch_name),
   rustJoin install_path "usr/lib".data,
   rustJoin install_path ("lib/".data ++ multiarch_name),
   rustJoin install_path "lib".data]

def includeRoots (install_path multiarch_name : List Char) : List (List Char) :=
  [rustJoin install_path ("usr/include/".data ++ multiarch_name),
   rustJoin install_path "usr/include".data]

/-- The prepend lists `configure_layer_environment` installs into the layer
environment (each one is later joined with `:` and prepended). -/
structure LayerEnvModel where
  path : List (List Char)
  ld_library_path : List (List Char)
  library_path : List (List Char)
  include_path : List (List Char)
  cpath : List (List Char)
  cpppath : List (List Char)
  pkg_config_path : List (List Char)
deriving DecidableEq, Repr

/-- Embedding of `configure_layer_environment` of `src/install_packages.rs`. -/
def configure_layer_environment (fs : List (List Char)) (install_path : List Char)
    (multiarch_name : List Char) : LayerEnvModel :=
  let bin_paths := [rustJoin install_path "bin".data,
    rustJoin install_path "usr/bin".data,
    rustJoin install_path "usr/sbin".data]
  let library_paths := (libraryRoots install_path multiarch_name).foldl
    (fun acc lib_dir =>
      indexSetInsert
        ((find_all_dirs_containing fs lib_dir shared_library_file).foldl
          indexSetInsert acc)
        lib_dir) []
  let include_paths := (includeRoots install_path multiarch_name).foldl
    (fun acc include_dir =>
      indexSetInsert
        ((find_all_dirs_containing fs include_dir header_file).foldl
          indexSetInsert acc)
        include_dir) []
  let pkg_config_paths :=
    [rustJoin install_path ("usr/lib/".data ++ multiarch_name ++ "/pkgconfig".data),
     rustJoin install_path "usr/lib/pkgconfig".data]
  { path := bin_paths
    ld_library_path := library_paths
    library_path := library_paths
    include_path := include_paths
    cpath := include_paths
    cpppath := include_paths
    pkg_config_path := pkg_config_paths }

/-- The library list as the claim describes it: for each root in order, the
matching directories then the root, concatenated (no deduplication). -/
def claimLibraryList (fs : List (List Char)) (install_path multiarch_name : List Char) :
    List (List Char) :=
  (libraryRoots install_path multiarch_name).flatMap
    (fun r => find_all_dirs_containing fs r shared_library_file ++ [r])

example :
    (configure_layer_environment
      ["/L/usr/lib/x86_64-linux-gnu/nested-1/shared-library.so.2".data,
       "/L/usr/lib/nested-2/shared-library.so".data,
       "/L/lib/x86_64-linux-gnu/nested-3/shared-library.so.4".data,
       "/L/lib/x86_64-linux-gnu/nested-3/deeply/shared-library.so.5".data,
       "/L/lib/nested-4/shared-library.so.3.0.0".data,
       "/L/usr/lib/nested-but/does-not-contain-a-shared-library.txt".data,
       "/L/usr/not-a-lib-dir/shared-library.so.6".data]
      "/L".data "x86_64-linux-gnu".data).ld_library_path
    = ["/L/usr/lib/x86_64-linux-gnu/nested-1".data,
       "/L/usr/lib/x86_64-linux-gnu".data,
       "/L/usr/lib/nested-2".data,
       "/L/usr/lib".data,
       "/L/lib/x86_64-linux-gnu/nested-3/deeply".data,
       "/L/lib/x86_64-linux-gnu/nested-3".data,
       "/L/lib/x86_64-linux-gnu".data,
       "/L/lib/nested-4".data,
       "/L/lib".data] := by decide

example :
    (configure_layer_environment
      ["/L/usr/include/x86_64-linux-gnu/nested-1/header.h".data,
       "/L/usr/include/nested-2/header.h".data,
       "/L/usr/include/nested-2/deeply/header.h".data,
       "/L/usr/include/nested-but/does-not-contain-a-header.txt".data,
       "/L/usr/not-an-include-dir/header.h".data]
      "/L".data "x86_64-linux-gnu".data).include_path
    = ["/L/usr/include/x86_64-linux-gnu/nested-1".data,
       "/L/usr/include/x86_64-linux-gnu".data,
       "/L/usr/include/nested-2/deeply".data,
       "/L/usr/include/nested-2".data,
       "/L/usr/include".data] := by decide

/-- C7 (counterexample): a shared library below `usr/lib/{M}` is found by the
walks of both the `usr/lib/{M}` root and the `usr/lib` root, so the claim's
per-root concatenation lists its directory twice, while the code's
`IndexSet` keeps only the first occurrence. -/
theorem c7_counterexample :
    (configure_layer_environment
        ["/L/usr/lib/x86_64-linux-gnu/d/x.so".data]
        "/L".data "x86_64-linux-gnu".data).ld_library_path
      = ["/L/usr/lib/x86_64-linux-gnu/d".data,
         "/L/usr/lib/x86_64-linux-gnu".data,
         "/L/usr/lib".data,
         "/L/lib/x86_64-linux-gnu".data,
         "/L/lib".data]
    ∧ claimLibraryList ["/L/usr/lib/x86_64-linux-gnu/d/x.so".data]
        "/L".data "x86_64-linux-gnu".data
      = ["/L/usr/lib/x86_64-linux-gnu/d".data,
         "/L/usr/lib/x86_64-linux-gnu".data,
         "/L/usr/lib/x86_64-linux-gnu/d".data,
         "/L/usr/lib".data,
         "/L/lib/x86_64-linux-gnu".data,
         "/L/lib".data]
    ∧ (configure_layer_environment
        ["/L/usr/lib/x86_64-linux-gnu/d/x.so".data]
        "/L".data "x86_64-linux-gnu".data).ld_library_path
      ≠ claimLibraryList ["/L/usr/lib/x86_64-linux-gnu/d/x.so".data]
        "/L".data "x86_64-linux-gnu".data := by
  refine ⟨by decide, by decide, by decide⟩

theorem foldl_insert_blocks {α : Type u} [DecidableEq α]
    (g : α → List α) :
    ∀ (roots : List α) (acc : List α),
      roots.foldl (fun a r => indexSetInsert ((g r).foldl indexSetInsert a) r) acc
      = (roots.flatMap (fun r => g r ++ [r])).foldl indexSetInsert acc := by
  intro roots
  induction roots with
  | nil => intro acc; rfl
  | cons r rs ih =>
    intro acc
    have e1 : (r :: rs).foldl
        (fun a r => indexSetInsert ((g r).foldl indexSetInsert a) r) acc
        = rs.foldl (fun a r => indexSetInsert ((g r).foldl indexSetInsert a) r)
            (indexSetInsert ((g r).foldl indexSetInsert acc) r) := rfl
    rw [e1, ih]
    have e2 : indexSetInsert ((g r).foldl indexSetInsert acc) r
        = (g r ++ [r]).foldl indexSetInsert acc := by
      rw [List.foldl_append]
      rfl
    rw [e2, ← List.foldl_append]
    rfl

/-- C7 (amended): `LD_LIBRARY_PATH` and `LIBRARY_PATH` receive the identical
prepended list, and that list is the claim's per-root construction — for each
root the directories containing a `.so`-named entry in descending path-length
order followed by the root — with duplicates removed, first occurrence
kept. -/
theorem c7_library_paths (fs : List (List Char))
    (install_path multiarch_name : List Char) :
    (configure_layer_environment fs install_path multiarch_name).ld_library_path
      = (configure_layer_environment fs install_path multiarch_name).library_path
    ∧ (configure_layer_environment fs install_path multiarch_name).ld_library_path
      = dedupKeepFirst (claimLibraryList fs install_path multiarch_name) := by
  refine ⟨rfl, ?_⟩
  have e : (configure_layer_environment fs install_path multiarch_name).ld_library_path
      = (libraryRoots install_path multiarch_name).foldl
          (fun acc lib_dir => indexSetInsert
            ((find_all_dirs_containing fs lib_dir shared_library_file).foldl
              indexSetInsert acc) lib_dir) [] := rfl
  rw [e, claimLibraryList, dedupKeepFirst,
    foldl_insert_blocks (fun r => find_all_dirs_containing fs r shared_library_file)]

/-! ## Distribution profile (claims C8, C9)

`src/debian/distro.rs`, `src/debian/architecture_name.rs`,
`src/debian/distro_codename.rs`. -/

inductive ArchitectureName
  | AMD_64
  | ARM_64
deriving DecidableEq, Repr

inductive DistroCodename
  | Jammy
  | Noble
deriving DecidableEq, Repr

/-- Embedding of `ArchitectureName::from_str`; the error carries the invalid name. -/
def ArchitectureName.from_str (value : String) : Except String ArchitectureName :=
  if value = "amd64" then Except.ok ArchitectureName.AMD_64
  else if value = "arm64" then Except.ok ArchitectureName.ARM_64
  else Except.error value

structure Distro where
  name : String
  version : String
  codename : DistroCodename
  architecture : ArchitectureName
deriving DecidableEq, Repr

/-- Modelled from the spec: `Source` (`src/debian/source.rs` is absent from
the sources; spec §3: `(repository_uri, suite, components[], architecture,
signing_certificate_bytes)`, constructed in `distro.rs` as
`Source::new(uri, suites, components, certificate, arch)`). -/
structure Source where
  uri : String
  suites : List String
  components : List String
  signed_by : String
  arch : ArchitectureName
deriving DecidableEq, Repr

def Source.new (uri : String) (suites components : List String)
    (signed_by : String) (arch : ArchitectureName) : Source :=
  ⟨uri, suites, components, signed_by, arch⟩

/-- Stand-in for `include_str!("../../keys/ubuntu_22.04.asc")` (the key file
bytes are not part of the embedded logic). -/
def ubuntu2204Certificate : String := "keys/ubuntu_22.04.asc"

def ubuntu2404Certificate : String := "keys/ubuntu_24.04.asc"

def get_jammy_source_list : List Source :=
  [Source.new "http://archive.ubuntu.com/ubuntu"
    ["jammy", "jammy-security", "jammy-updates"]
    ["main", "universe"]
    ubuntu2204Certificate
    ArchitectureName.AMD_64]

def get_noble_source_list : List Source :=
  [Source.new "http://archive.ubuntu.com/ubuntu"
    ["noble", "noble-updates"]
    ["main", "universe"]
    ubuntu2404Certificate
    ArchitectureName.AMD_64,
   Source.new "http://security.ubuntu.com/ubuntu"
    ["noble-security"]
    ["main", "universe"]
    ubuntu2404Certificate
    ArchitectureName.AMD_64,
   Source.new "http://ports.ubuntu.com/ubuntu-ports"
    ["noble", "noble-updates", "noble-security"]
    ["main", "universe"]
    ubuntu2404Certificate
    ArchitectureName.ARM_64]

/-- Embedding of `Distro::get_source_list`: the codename's built-in source list filtered
by the distro's architecture. -/
def Distro.get_source_list (distro : Distro) : List Source :=
  (match distro.codename with
    | DistroCodename.Jammy => get_jammy_source_list
    | DistroCodename.Noble => get_noble_source_list).filter
    (fun source => source.arch = distro.architecture)

/-- The platform target handed to `Distro::try_from`. -/
structure Target where
  distro_name : String
  distro_version : String
  arch : String
deriving DecidableEq, Repr

structure UnsupportedDistroError where
  name : String
  version : String
  architecture : String
deriving DecidableEq, Repr

/-- Embedding of `str::to_lowercase` restricted to the ASCII names that occur here. -/
def asciiLowercase (s : String) : String :=
  String.mk (s.data.map Char.toLower)

/-- Embedding of `Distro::try_from(&Target)`. -/
def Distro.try_from (target : Target) : Except UnsupportedDistroError Distro :=
  let name := target.distro_name
  let version := target.distro_version
  let target_arch := target.arch
  match ArchitectureName.from_str target_arch with
  | Except.error _ => Except.error ⟨name, version, target_arch⟩
  | Except.ok architecture =>
    if asciiLowercase name = "ubuntu" ∧ version = "22.04" then
      Except.ok ⟨name, version, DistroCodename.Jammy, architecture⟩
    else if asciiLowercase name = "ubuntu" ∧ version = "24.04" then
      Except.ok ⟨name, version, DistroCodename.Noble, architecture⟩
    else Except.error ⟨name, version, target_arch⟩

/-- C9: the target (ubuntu, 22.04, arm64) is accepted as a supported distro,
yet `get_source_list` on the result is empty, because the built-in Jammy
source list holds only amd64 sources and `get_source_list` filters by the
distro's architecture — the build proceeds with no package sources rather
than failing as unsupported. -/
theorem c9_jammy_arm64_empty_sources :
    Distro.try_from ⟨"ubuntu", "22.04", "arm64"⟩
      = Except.ok ⟨"ubuntu", "22.04", DistroCodename.Jammy, ArchitectureName.ARM_64⟩
    ∧ Distro.get_source_list
        ⟨"ubuntu", "22.04", DistroCodename.Jammy, ArchitectureName.ARM_64⟩ = []
    ∧ ∀ s ∈ get_jammy_source_list, s.arch = ArchitectureName.AMD_64 := by
  refine ⟨rfl, rfl, by decide⟩

/-! ## Install-layer caching (claim C8)

The `cached_layer` policy of `install_packages` (`src/install_packages.rs`):
`invalid_metadata_action` always deletes; `restored_layer_action` keeps the
layer exactly when the restored metadata equals the freshly computed one.
`HashMap<String, String>` equality is extensional, so `package_checksums` is
kept in a canonical form: sorted by key, later inserts overwriting. -/

inductive LayerAction
  | KeepLayer
  | DeleteLayer
deriving DecidableEq, Repr

inductive EmptyLayerCause
  | NewlyCreated
  | InvalidMetadata
  | RestoredLayerActionCause
deriving DecidableEq, Repr

inductive LayerStateM
  | Restored
  | Empty (cause : EmptyLayerCause)
deriving DecidableEq, Repr

def charsLt : List Char → List Char → Bool
  | [], [] => false
  | [], _ :: _ => true
  | _ :: _, [] => false
  | a :: as, b :: bs => if a = b then charsLt as bs else decide (a.toNat < b.toNat)

/-- Insert into the canonical (key-sorted) association list, the new value
overwriting an equal key. -/
def insertCanon (m : List (String × String)) (kv : String × String) :
    List (String × String) :=
  match m with
  | [] => [kv]
  | (k, v) :: rest =>
    if kv.1 = k then (k, kv.2) :: rest
    else if charsLt kv.1.data k.data then kv :: (k, v) :: rest
    else (k, v) :: insertCanon rest kv

def canonMap (l : List (String × String)) : List (String × String) :=
  l.foldl insertCanon []

structure InstallationMetadata where
  package_checksums : List (String × String)
  distro : Distro
deriving DecidableEq, Repr

/-- The `new_metadata` computed at the top of `install_packages`. -/
def newInstallationMetadata (packages_to_install : List RepositoryPackage)
    (distro : Distro) : InstallationMetadata :=
  ⟨canonMap (packages_to_install.map (fun p => (p.name, p.sha256sum))), distro⟩

/-- Embedding of `invalid_metadata_action: &|_| InvalidMetadataAction::DeleteLayer`. -/
def invalid_metadata_action : LayerAction := LayerAction.DeleteLayer

/-- Embedding of `restored_layer_action`: keep iff the old metadata equals the new. -/
def restored_layer_action (old_metadata new_metadata : InstallationMetadata) :
    LayerAction :=
  if old_metadata = new_metadata then LayerAction.KeepLayer
  else LayerAction.DeleteLayer

/-- Modelled from the spec: the layer-cache contract of §6 — `cached_layer`
consults the two policy callbacks: no previous layer is `Empty NewlyCreated`,
undeserializable metadata goes through `invalid_metadata_action`, restored
metadata through `restored_layer_action`; `DeleteLayer` empties the layer. -/
def cachedLayerState (restored : Option (Option InstallationMetadata))
    (new_metadata : InstallationMetadata) : LayerStateM :=
  match restored with
  | none => LayerStateM.Empty EmptyLayerCause.NewlyCreated
  | some none =>
    match invalid_metadata_action with
    | LayerAction.DeleteLayer => LayerStateM.Empty EmptyLayerCause.InvalidMetadata
    | LayerAction.KeepLayer => LayerStateM.Restored
  | some (some old_metadata) =>
    match restored_layer_action old_metadata new_metadata with
    | LayerAction.KeepLayer => LayerStateM.Restored
    | LayerAction.DeleteLayer =>
      LayerStateM.Empty EmptyLayerCause.RestoredLayerActionCause

/-- The dispatch of `install_packages` on the layer state: a restored layer
downloads nothing, an empty layer runs `download_and_extract` for every
package of the install set. -/
def install_packages_downloads (restored : Option (Option InstallationMetadata))
    (packages_to_install : List RepositoryPackage) (distro : Distro) :
    LayerStateM × List RepositoryPackage :=
  match cachedLayerState restored (newInstallationMetadata packages_to_install distro) with
  | LayerStateM.Restored => (LayerStateM.Restored, [])
  | LayerStateM.Empty cause => (LayerStateM.Empty cause, packages_to_install)

/-- C8: a restored install layer is kept iff the restored metadata equals the
metadata computed from the current install set; on any inequality the layer
is deleted and every package is downloaded and extracted again; invalid
metadata always deletes the layer (and also re-downloads everything). -/
theorem c8_cache_decision (packages_to_install : List RepositoryPackage)
    (distro : Distro) (old_metadata : InstallationMetadata) :
    (cachedLayerState (some (some old_metadata))
        (newInstallationMetadata packages_to_install distro) = LayerStateM.Restored
      ↔ old_metadata = newInstallationMetadata packages_to_install distro)
    ∧ (old_metadata = newInstallationMetadata packages_to_install distro →
      install_packages_downloads (some (some old_metadata)) packages_to_install distro
        = (LayerStateM.Restored, []))
    ∧ (old_metadata ≠ newInstallationMetadata packages_to_install distro →
      install_packages_downloads (some (some old_metadata)) packages_to_install distro
        = (LayerStateM.Empty EmptyLayerCause.RestoredLayerActionCause,
            packages_to_install))
    ∧ install_packages_downloads (some none) packages_to_install distro
        = (LayerStateM.Empty EmptyLayerCause.InvalidMetadata, packages_to_install) := by
  refine ⟨?_, ?_, ?_, ?_⟩
  · constructor
    · intro h
      by_cases he : old_metadata = newInstallationMetadata packages_to_install distro
      · exact he
      · simp [cachedLayerState, restored_layer_action, he] at h
    · intro he
      simp [cachedLayerState, restored_layer_action, he]
  · intro he
    simp [install_packages_downloads, cachedLayerState, restored_layer_action, he]
  · intro he
    simp [install_packages_downloads, cachedLayerState, restored_layer_action, he]
  · rfl

def jammyAmd64 : Distro :=
  ⟨"ubuntu", "22.04", DistroCodename.Jammy, ArchitectureName.AMD_64⟩

/-- Witness for C8 at a concrete metadata pair (matching and mismatching). -/
theorem c8_cache_decision_witness :
    (cachedLayerState
        (some (some (newInstallationMetadata [testPkg "curl" "7.81.0-1"] jammyAmd64)))
        (newInstallationMetadata [testPkg "curl" "7.81.0-1"] jammyAmd64)
      = LayerStateM.Restored)
    ∧ install_packages_downloads
        (some (some (⟨[], jammyAmd64⟩ : InstallationMetadata)))
        [testPkg "curl" "7.81.0-1"] jammyAmd64
      = (LayerStateM.Empty EmptyLayerCause.RestoredLayerActionCause,
          [testPkg "curl" "7.81.0-1"]) :=
  ⟨((c8_cache_decision [testPkg "curl" "7.81.0-1"] jammyAmd64
      (newInstallationMetadata [testPkg "curl" "7.81.0-1"] jammyAmd64)).1).mpr rfl,
    (c8_cache_decision [testPkg "curl" "7.81.0-1"] jammyAmd64
      ⟨[], jammyAmd64⟩).2.2.1 (by decide)⟩

end DebPkgs
